import Mathlib

/-!
Shallow embedding of the position-lifecycle and risk-control engine of the
fishzone24/quantitative-bot repository (files src/trading/trade_recorder.py
and src/trading/auto_trader.py), together with theorems settling the frozen
claims about the natural-language specification.

Modelling conventions:
- Python floats are modelled as rationals.
- The CSV trade file (the Ledger) is a list of trade records in file order.
- The pandas operations used by the source (boolean-mask row selection with
  iloc[0], update at the first matching index) are modelled by first-match
  search and first-match update on the list.
- Fallible I/O (the CSV write in record_trade_exit, the CSV append in
  record_trade_entry, exchange calls) is modelled by explicit success flags
  supplied by an oracle; a failed write is atomic and leaves the store
  unchanged, mirroring the catch-all exception handlers that return
  False/None.
-/

namespace QuantBot

/-- Trade direction, the side column of the trade record. -/
inductive Side
  | buy
  | sell
deriving DecidableEq, Repr

/-- Status column of a trade record. -/
inductive Status
  | OPEN
  | CLOSED
deriving DecidableEq, Repr

/-- A trading pair symbol, split into base and quote currency as done by
symbol.split in the source. -/
structure Symbol where
  base : String
  quote : String
deriving DecidableEq, Repr

/-- One row of the trades CSV file written by TradeRecorder.  The source
initializes profit_loss and profit_loss_pct to 0 and exit fields to empty
on entry. -/
structure TradeRecord where
  trade_id : Nat
  symbol : Symbol
  side : Side
  entry_price : ℚ
  quantity : ℚ
  exit_price : Option ℚ
  profit_loss : ℚ
  profit_loss_pct : ℚ
  status : Status
  strategy : String
  notes : String
deriving DecidableEq, Repr

/-- Update the first element of a list satisfying a predicate, leaving the
rest unchanged; models the pandas pattern of selecting matching rows and
writing through the first matching index. -/
def updateFirst (p : α → Bool) (f : α → α) : List α → List α
  | [] => []
  | x :: xs => if p x then f x :: xs else x :: updateFirst p f xs

/-- Embedding of TradeRecorder.record_trade_exit: look up the first row with
the given trade id; fail if absent or not OPEN; otherwise compute realized
profit and loss exactly as the source does and close the row.  Returns the
success flag together with the resulting ledger. -/
def record_trade_exit (ledger : List TradeRecord) (tid : Nat) (exit_price : ℚ)
    (notes : Option String) : Bool × List TradeRecord :=
  match ledger.find? (fun t => t.trade_id == tid) with
  | none => (false, ledger)
  | some t =>
    if t.status ≠ Status.OPEN then (false, ledger)
    else
      let profit_loss : ℚ :=
        match t.side with
        | Side.buy => (exit_price - t.entry_price) * t.quantity
        | Side.sell => (t.entry_price - exit_price) * t.quantity
      let profit_loss_pct : ℚ :=
        match t.side with
        | Side.buy => (exit_price - t.entry_price) / t.entry_price * 100
        | Side.sell => (t.entry_price - exit_price) / t.entry_price * 100
      (true,
        updateFirst (fun u => u.trade_id == tid)
          (fun u =>
            { u with
              exit_price := some exit_price
              profit_loss := profit_loss
              profit_loss_pct := profit_loss_pct
              status := Status.CLOSED
              notes := notes.getD u.notes })
          ledger)

section RecorderLemmas

theorem find?_updateFirst (p : α → Bool) (f : α → α) (l : List α)
    (hf : ∀ x, p (f x) = p x) :
    (updateFirst p f l).find? p = (l.find? p).map f := by
  induction l with
  | nil => rfl
  | cons x xs ih =>
    by_cases hx : p x
    · simp [updateFirst, hx, List.find?_cons_of_pos, hf]
    · simp only [updateFirst, hx, if_neg, Bool.false_eq_true, not_false_iff]
      rw [List.find?_cons_of_neg _ (by simpa using hx),
        List.find?_cons_of_neg _ (by simpa using hx), ih]

theorem record_trade_exit_not_found (ledger : List TradeRecord) (tid : Nat)
    (p : ℚ) (n : Option String)
    (h : ledger.find? (fun t => t.trade_id == tid) = none) :
    record_trade_exit ledger tid p n = (false, ledger) := by
  simp [record_trade_exit, h]

theorem record_trade_exit_closed (ledger : List TradeRecord) (tid : Nat)
    (p : ℚ) (n : Option String) (t : TradeRecord)
    (h : ledger.find? (fun u => u.trade_id == tid) = some t)
    (hs : t.status ≠ Status.OPEN) :
    record_trade_exit ledger tid p n = (false, ledger) := by
  simp [record_trade_exit, h, hs]

theorem record_trade_exit_success_find (ledger : List TradeRecord) (tid : Nat)
    (p : ℚ) (n : Option String)
    (h : (record_trade_exit ledger tid p n).1 = true) :
    ∃ t, ledger.find? (fun u => u.trade_id == tid) = some t ∧
      t.status = Status.OPEN := by
  rcases hfind : ledger.find? (fun u => u.trade_id == tid) with _ | t
  · rw [record_trade_exit_not_found ledger tid p n hfind] at h
    simp at h
  · by_cases hs : t.status = Status.OPEN
    · exact ⟨t, hfind, hs⟩
    · rw [record_trade_exit_closed ledger tid p n t hfind hs] at h
      simp at h

theorem record_trade_exit_success_spec (ledger : List TradeRecord) (tid : Nat)
    (p : ℚ) (n : Option String) (t : TradeRecord)
    (hfind : ledger.find? (fun u => u.trade_id == tid) = some t)
    (hs : t.status = Status.OPEN) :
    (record_trade_exit ledger tid p n).1 = true ∧
    (record_trade_exit ledger tid p n).2.find? (fun u => u.trade_id == tid) =
      some { t with
        exit_price := some p
        profit_loss :=
          match t.side with
          | Side.buy => (p - t.entry_price) * t.quantity
          | Side.sell => (t.entry_price - p) * t.quantity
        profit_loss_pct :=
          match t.side with
          | Side.buy => (p - t.entry_price) / t.entry_price * 100
          | Side.sell => (t.entry_price - p) / t.entry_price * 100
        status := Status.CLOSED
        notes := n.getD t.notes } := by
  constructor
  · simp [record_trade_exit, hfind, hs]
  · simp only [record_trade_exit, hfind, hs, ne_eq, not_true_eq_false, if_false]
    refine (find?_updateFirst _ _ ledger ?_).trans ?_
    · exact fun x => rfl
    · rw [hfind]
      rfl

end RecorderLemmas

/-- Ledger row used in the counterexample for claim C2: an OPEN buy trade
with entry price 100 and quantity 2. -/
def c2Trade : TradeRecord :=
  { trade_id := 1
    symbol := ⟨"BTC", "USDT"⟩
    side := Side.buy
    entry_price := 100
    quantity := 2
    exit_price := none
    profit_loss := 0
    profit_loss_pct := 0
    status := Status.OPEN
    strategy := ""
    notes := "" }

/-- C2, counterexample.  Closing the OPEN buy trade with entry 100 and
quantity 2 at exit price 110 stores profit_loss_pct = 10, whereas the
claimed formula including the quantity factor,
(exit − entry) × quantity / entry × 100, gives 20. -/
theorem record_trade_exit_pct_cex :
    ((record_trade_exit [c2Trade] 1 110 none).2.map TradeRecord.profit_loss_pct
      = [10]) ∧
    (110 - (100 : ℚ)) * 2 / 100 * 100 = 20 ∧ (10 : ℚ) ≠ 20 := by
  refine ⟨?_, by norm_num, by norm_num⟩
  norm_num [record_trade_exit, c2Trade, updateFirst]

/-- C2 (amended).  For an OPEN trade with positive entry price and quantity,
a successful record_trade_exit stores
profit_loss = (exit − entry) × quantity for a buy and
(entry − exit) × quantity for a sell, and stores
profit_loss_pct = (exit − entry) / entry × 100 for a buy and
(entry − exit) / entry × 100 for a sell — the percentage does not carry the
quantity factor. -/
theorem record_trade_exit_pnl_formulas (ledger : List TradeRecord) (tid : Nat)
    (p : ℚ) (n : Option String) (t : TradeRecord)
    (hfind : ledger.find? (fun u => u.trade_id == tid) = some t)
    (hs : t.status = Status.OPEN)
    (hentry : 0 < t.entry_price) (hq : 0 < t.quantity) :
    (record_trade_exit ledger tid p n).1 = true ∧
    ((record_trade_exit ledger tid p n).2.find? (fun u => u.trade_id == tid)).map
        (fun u => (u.profit_loss, u.profit_loss_pct, u.status)) =
      some
        (match t.side with
         | Side.buy => (p - t.entry_price) * t.quantity
         | Side.sell => (t.entry_price - p) * t.quantity,
         match t.side with
         | Side.buy => (p - t.entry_price) / t.entry_price * 100
         | Side.sell => (t.entry_price - p) / t.entry_price * 100,
         Status.CLOSED) := by
  obtain ⟨h1, h2⟩ := record_trade_exit_success_spec ledger tid p n t hfind hs
  exact ⟨h1, by rw [h2]; rfl⟩

/-- Witness for claim C2 at the concrete ledger of one OPEN buy trade with
entry price 100, quantity 2, closed at 110. -/
theorem record_trade_exit_pnl_formulas_witness :
    (record_trade_exit [c2Trade] 1 110 none).1 = true ∧
    ((record_trade_exit [c2Trade] 1 110 none).2.find?
        (fun u => u.trade_id == 1)).map
        (fun u => (u.profit_loss, u.profit_loss_pct, u.status)) =
      some ((110 - (100 : ℚ)) * 2, (110 - (100 : ℚ)) / 100 * 100,
        Status.CLOSED) :=
  record_trade_exit_pnl_formulas [c2Trade] 1 110 none c2Trade
    (by norm_num [c2Trade]) (by norm_num [c2Trade]) (by norm_num [c2Trade])
    (by norm_num [c2Trade])

/-- C3.  record_trade_exit on a trade id that is absent from the ledger, or
whose first matching row is not OPEN, returns failure and leaves the ledger
unchanged; and after a first successful call, a second call with the same
arguments returns failure and leaves the ledger unchanged, so profit and
loss is never double-counted. -/
theorem record_trade_exit_failure_idempotent (ledger : List TradeRecord)
    (tid : Nat) (p : ℚ) (n : Option String) :
    (ledger.find? (fun u => u.trade_id == tid) = none →
      record_trade_exit ledger tid p n = (false, ledger)) ∧
    (∀ t, ledger.find? (fun u => u.trade_id == tid) = some t →
      t.status ≠ Status.OPEN →
      record_trade_exit ledger tid p n = (false, ledger)) ∧
    ((record_trade_exit ledger tid p n).1 = true →
      record_trade_exit (record_trade_exit ledger tid p n).2 tid p n
        = (false, (record_trade_exit ledger tid p n).2)) := by
  refine ⟨record_trade_exit_not_found ledger tid p n,
    fun t h hs => record_trade_exit_closed ledger tid p n t h hs, fun hok => ?_⟩
  obtain ⟨t, hfind, hs⟩ := record_trade_exit_success_find ledger tid p n hok
  obtain ⟨-, h2⟩ := record_trade_exit_success_spec ledger tid p n t hfind hs
  exact record_trade_exit_closed _ tid p n _ h2 (by simp)

/-- Witness for claim C3: after closing the concrete buy trade, a repeated
call with the same arguments fails and leaves the ledger unchanged. -/
theorem record_trade_exit_failure_idempotent_witness :
    record_trade_exit (record_trade_exit [c2Trade] 1 110 none).2 1 110 none
      = (false, (record_trade_exit [c2Trade] 1 110 none).2) :=
  (record_trade_exit_failure_idempotent [c2Trade] 1 110 none).2.2
    (by norm_num [record_trade_exit, c2Trade])

/-- Result of the profit-factor computation: the source stores either the
Python float inf or a finite ratio. -/
inductive ProfitFactor
  | infinite
  | val (q : ℚ)
deriving DecidableEq, Repr

/-- Embedding of the profit-factor computation of
TradeRecorder.get_performance_metrics: with no closed trades the early
return reports 0; otherwise wins are the trades with positive profit_loss
and losses those with negative profit_loss, and the factor is
abs(win_sum / loss_sum) when there is at least one losing trade with
nonzero loss sum, and inf otherwise. -/
def profit_factor (pls : List ℚ) : ProfitFactor :=
  if pls.isEmpty then ProfitFactor.val 0
  else
    let wins := pls.filter (fun x => decide (0 < x))
    let losses := pls.filter (fun x => decide (x < 0))
    if 0 < losses.length ∧ losses.sum ≠ 0 then
      ProfitFactor.val |wins.sum / losses.sum|
    else ProfitFactor.infinite

theorem sum_lt_zero_of_all_neg (l : List ℚ) (h : ∀ x ∈ l, x < 0)
    (hne : l ≠ []) : l.sum < 0 := by
  induction l with
  | nil => simp at hne
  | cons x xs ih =>
    rcases eq_or_ne xs [] with rfl | hxs
    · simpa using h x (by simp)
    · have hx := h x (by simp)
      have hxs2 := ih (fun y hy => h y (by simp [hy])) hxs
      simp only [List.sum_cons]
      linarith

/-- C5, counterexample.  A single break-even closed trade (profit_loss = 0)
has no winning and no losing trades, yet the source computes an infinite
profit factor, contradicting the claim that the factor is infinite only
when winning trades exist. -/
theorem profit_factor_breakeven_cex :
    profit_factor [(0 : ℚ)] = ProfitFactor.infinite ∧
    ([(0 : ℚ)].filter (fun x => decide (0 < x))) = [] ∧
    ([(0 : ℚ)].filter (fun x => decide (x < 0))) = [] := by
  norm_num [profit_factor]

/-- C5 (amended).  The profit factor is infinite exactly when there is at
least one closed trade and no losing trade (in particular a set of
all-break-even closed trades yields infinity); it is 0 when there are no
closed trades at all; and when losing trades exist it equals the absolute
value of the winning sum divided by the losing sum. -/
theorem profit_factor_spec (pls : List ℚ) :
    (profit_factor pls = ProfitFactor.infinite ↔
      pls ≠ [] ∧ pls.filter (fun x => decide (x < 0)) = []) ∧
    profit_factor [] = ProfitFactor.val 0 ∧
    (pls.filter (fun x => decide (x < 0)) ≠ [] →
      profit_factor pls =
        ProfitFactor.val
          |(pls.filter (fun x => decide (0 < x))).sum /
            (pls.filter (fun x => decide (x < 0))).sum|) := by
  have hmem : ∀ x ∈ pls.filter (fun x => decide (x < 0)), x < 0 := fun x hx =>
    of_decide_eq_true (List.mem_filter.mp hx).2
  refine ⟨?_, by simp [profit_factor], ?_⟩
  · by_cases hempty : pls = []
    · subst hempty
      simp [profit_factor]
    · by_cases hl : pls.filter (fun x => decide (x < 0)) = []
      · simp [profit_factor, hempty, hl]
      · have hsum := sum_lt_zero_of_all_neg _ hmem hl
        have hlen : 0 < (pls.filter (fun x => decide (x < 0))).length :=
          List.length_pos.mpr hl
        simp [profit_factor, hempty, hl, hlen, hsum.ne]
  · intro hl
    have hsum := sum_lt_zero_of_all_neg _ hmem hl
    have hlen : 0 < (pls.filter (fun x => decide (x < 0))).length :=
      List.length_pos.mpr hl
    have hne : pls ≠ [] := by
      intro h
      subst h
      simp at hl
    simp [profit_factor, hne, hlen, hsum.ne]

/-- Witness for claim C5 at the concrete closed-trade list with one win of
5 and one loss of 2: the profit factor is the finite ratio of the filtered
sums. -/
theorem profit_factor_spec_witness :
    profit_factor [(5 : ℚ), -2] =
      ProfitFactor.val
        |(([(5 : ℚ), -2].filter (fun x => decide (0 < x))).sum /
          ([(5 : ℚ), -2].filter (fun x => decide (x < 0))).sum)| :=
  (profit_factor_spec [(5 : ℚ), -2]).2.2 (by norm_num)

/-- Decimal precision chosen by AutoTrader._calculate_trade_size: 6 places
for prices below 100, otherwise 4. -/
def calc_precision (price : ℚ) : ℕ := if price < 100 then 6 else 4

/-- Rounding down to a number of decimal places, the
floor(q * 10^precision) / 10^precision step of the source. -/
def floor_to (precision : ℕ) (q : ℚ) : ℚ :=
  (Int.floor (q * 10 ^ precision) : ℚ) / 10 ^ precision

/-- Embedding of AutoTrader._calculate_trade_size: the maximum affordable
quantity is free balance divided by price for a buy and the free base
balance for a sell; the result is the minimum of the configured maximum
trade size and that bound, floored to the computed precision. -/
def calculate_trade_size (max_trade_size : ℚ) (side : Side)
    (price free_balance : ℚ) : ℚ :=
  let max_quantity :=
    match side with
    | Side.buy => free_balance / price
    | Side.sell => free_balance
  floor_to (calc_precision price) (min max_trade_size max_quantity)

/-- C6.  For positive price and nonnegative balance, the computed order
quantity never exceeds the minimum of the configured maximum trade size and
the affordable maximum (balance / price for a buy, balance for a sell), and
flooring to any precision can only decrease a quantity. -/
theorem calculate_trade_size_le (mts : ℚ) (side : Side) (price bal : ℚ)
    (hp : 0 < price) (hb : 0 ≤ bal) :
    calculate_trade_size mts side price bal ≤
      min mts
        (match side with
         | Side.buy => bal / price
         | Side.sell => bal) ∧
    ∀ (prec : ℕ) (q : ℚ), floor_to prec q ≤ q := by
  have hfloor : ∀ (prec : ℕ) (q : ℚ), floor_to prec q ≤ q := by
    intro prec q
    have hs : (0 : ℚ) < 10 ^ prec := by positivity
    rw [floor_to, div_le_iff₀ hs]
    exact Int.floor_le _
  exact ⟨hfloor _ _, hfloor⟩

/-- Witness for claim C6 at the scenario of the specification: a buy at
price 50000 with balance 5 and maximum trade size 10. -/
theorem calculate_trade_size_le_witness :
    calculate_trade_size 10 Side.buy 50000 5 ≤ min 10 ((5 : ℚ) / 50000) :=
  (calculate_trade_size_le 10 Side.buy 50000 5 (by norm_num) (by norm_num)).1

/-- Reason reported when the risk monitor decides to close a position. -/
inductive ExitReason
  | stopLoss
  | takeProfit
  | trailingStop
deriving DecidableEq, Repr

/-- Embedding of the exit-condition evaluation of
AutoTrader.check_open_positions: an if/elif chain whose first matching
branch wins; the trailing branch fires only when dynamic stop loss is
enabled.  The extrema arguments are the values already updated with the
current price, as in the source. -/
def exit_reason (use_dynamic_sl : Bool) (stop_loss_pct : ℚ) (side : Side)
    (current_price stop_loss take_profit highest_price lowest_price : ℚ) :
    Option ExitReason :=
  match side with
  | Side.buy =>
    if current_price ≤ stop_loss then some ExitReason.stopLoss
    else if current_price ≥ take_profit then some ExitReason.takeProfit
    else if use_dynamic_sl ∧
        current_price < highest_price * (1 - stop_loss_pct / 200) then
      some ExitReason.trailingStop
    else none
  | Side.sell =>
    if current_price ≥ stop_loss then some ExitReason.stopLoss
    else if current_price ≤ take_profit then some ExitReason.takeProfit
    else if use_dynamic_sl ∧
        current_price > lowest_price * (1 + stop_loss_pct / 200) then
      some ExitReason.trailingStop
    else none

/-- C4.  Complete characterization of the exit decision, proving the
claimed precedence with first match winning: for a buy, stop-loss at
price ≤ stop_loss, else take-profit at price ≥ take_profit, else trailing
stop when dynamic stop loss is enabled and
price < highest × (1 − stop_loss_pct/200); for a sell the comparisons are
mirrored, with trailing at price > lowest × (1 + stop_loss_pct/200). -/
theorem exit_reason_precedence (dyn : Bool) (slp p sl tp hi lo : ℚ) :
    (exit_reason dyn slp Side.buy p sl tp hi lo = some ExitReason.stopLoss ↔
      p ≤ sl) ∧
    (exit_reason dyn slp Side.buy p sl tp hi lo = some ExitReason.takeProfit ↔
      sl < p ∧ tp ≤ p) ∧
    (exit_reason dyn slp Side.buy p sl tp hi lo
        = some ExitReason.trailingStop ↔
      sl < p ∧ p < tp ∧ dyn = true ∧ p < hi * (1 - slp / 200)) ∧
    (exit_reason dyn slp Side.buy p sl tp hi lo = none ↔
      sl < p ∧ p < tp ∧ (dyn = false ∨ hi * (1 - slp / 200) ≤ p)) ∧
    (exit_reason dyn slp Side.sell p sl tp hi lo = some ExitReason.stopLoss ↔
      sl ≤ p) ∧
    (exit_reason dyn slp Side.sell p sl tp hi lo = some ExitReason.takeProfit ↔
      p < sl ∧ p ≤ tp) ∧
    (exit_reason dyn slp Side.sell p sl tp hi lo
        = some ExitReason.trailingStop ↔
      p < sl ∧ tp < p ∧ dyn = true ∧ lo * (1 + slp / 200) < p) ∧
    (exit_reason dyn slp Side.sell p sl tp hi lo = none ↔
      p < sl ∧ tp < p ∧ (dyn = false ∨ p ≤ lo * (1 + slp / 200))) := by
  cases dyn <;>
    simp only [exit_reason, ge_iff_le, gt_iff_lt, Bool.false_eq_true,
      false_and, if_false, Bool.true_eq_false, true_and] <;>
    split_ifs <;>
    simp_all [not_le, not_lt, le_of_lt]

/-- Trading configuration read by AutoTrader.__init__. -/
structure Config where
  max_trade_size : ℚ
  stop_loss_pct : ℚ
  take_profit_pct : ℚ
  use_dynamic_sl : Bool

/-- One entry of the active_trades dictionary of AutoTrader.  The source
keeps stop_loss and take_profit possibly absent when the risk file is
missing; the model assumes the normal path in which every open trade has
numeric thresholds (the entry path always writes them, and a missing value
would make the price comparison in the tick raise). -/
structure ActivePosition where
  symbol : Symbol
  side : Side
  entry_price : ℚ
  quantity : ℚ
  stop_loss : ℚ
  take_profit : ℚ
  highest_price : ℚ
  lowest_price : ℚ
deriving DecidableEq, Repr

/-- Combined state of the Ledger (trades CSV) and the Risk Monitor's
active-position dictionary, in insertion order. -/
structure TraderState where
  ledger : List TradeRecord
  active : List (Nat × ActivePosition)
deriving DecidableEq, Repr

/-- The per-tick extrema update of check_open_positions:
highest_price := max(highest_price, price) and
lowest_price := min(lowest_price, price). -/
def update_extrema (pos : ActivePosition) (price : ℚ) : ActivePosition :=
  { pos with
    highest_price := max pos.highest_price price
    lowest_price := min pos.lowest_price price }

/-- One price observation, where none models a tick in which the price
query failed and the position was skipped. -/
def observe (pos : ActivePosition) (tick : Option ℚ) : ActivePosition :=
  match tick with
  | none => pos
  | some price => update_extrema pos price

/-- Embedding of AutoTrader._load_open_trades: one active position per OPEN
ledger row, thresholds taken from the risk-management store, extrema seeded
with the entry price. -/
def load_open_trades (ledger : List TradeRecord) (risk : Nat → ℚ × ℚ) :
    List (Nat × ActivePosition) :=
  (ledger.filter (fun t => t.status == Status.OPEN)).map fun t =>
    (t.trade_id,
      { symbol := t.symbol
        side := t.side
        entry_price := t.entry_price
        quantity := t.quantity
        stop_loss := (risk t.trade_id).1
        take_profit := (risk t.trade_id).2
        highest_price := t.entry_price
        lowest_price := t.entry_price })

/-- Embedding of AutoTrader._calculate_stop_loss_take_profit. -/
def calculate_stop_loss_take_profit (cfg : Config) (side : Side)
    (price : ℚ) : ℚ × ℚ :=
  match side with
  | Side.buy =>
    (price * (1 - cfg.stop_loss_pct / 100),
      price * (1 + cfg.take_profit_pct / 100))
  | Side.sell =>
    (price * (1 + cfg.stop_loss_pct / 100),
      price * (1 - cfg.take_profit_pct / 100))

/-- Embedding of TradeRecorder.record_trade_entry.  The catch-all handler
of the source turns any write failure into a None return with nothing
persisted; writeOk says whether the CSV append succeeds, newId stands for
the generated uuid. -/
def record_trade_entry (writeOk : Bool) (newId : Nat)
    (ledger : List TradeRecord) (symbol : Symbol) (side : Side)
    (entry_price quantity : ℚ) (strategy notes : String) :
    Option Nat × List TradeRecord :=
  if writeOk then
    (some newId,
      ledger ++
        [{ trade_id := newId
           symbol := symbol
           side := side
           entry_price := entry_price
           quantity := quantity
           exit_price := none
           profit_loss := 0
           profit_loss_pct := 0
           status := Status.OPEN
           strategy := strategy
           notes := notes }])
  else (none, ledger)

/-- Trading signal handed to execute_trade; the source accepts the strings
buy and sell case-insensitively and ignores everything else. -/
inductive Signal
  | buy
  | sell
  | neutral
deriving DecidableEq, Repr

/-- Side corresponding to an actionable signal. -/
def signal_side : Signal → Option Side
  | Signal.buy => some Side.buy
  | Signal.sell => some Side.sell
  | Signal.neutral => none

/-- External effects consumed by the entry path: the balance map of the
exchange, the order placement outcome, the CSV append outcome and the
generated trade id. -/
structure EntryOracle where
  free_balance : String → Option ℚ
  orderOk : Bool
  entryWriteOk : Bool
  newId : Nat

/-- Outcome dictionary returned by AutoTrader.execute_trade, reduced to its
status and reason; success carries the trade id returned by the recorder,
which the source passes through even when it is None. -/
inductive EntryOutcome
  | ignoredNeutral
  | ignoredLowConfidence
  | failedNoBalance
  | failedBadQuantity
  | failedOrder
  | success (trade_id : Option Nat)
deriving DecidableEq, Repr

/-- The trade_notes string built by execute_trade; a falsy (zero or absent)
confidence selects the plain strategy note. -/
def mkNotes (confidence : Option ℚ) (ai_analysis : Option String) : String :=
  let base :=
    match confidence with
    | some c =>
      if c ≠ 0 then "AI confidence: " ++ toString c ++ "%, strategy: auto"
      else "strategy: auto"
    | none => "strategy: auto"
  match ai_analysis with
  | some a => base ++ " AI analysis: " ++ a
  | none => base

/-- Tail of AutoTrader.execute_trade after the signal and confidence gates:
balance check, sizing, thresholds, order placement, entry recording, and
insertion into the active dictionary only for a non-None trade id. -/
def execute_trade_body (cfg : Config) (o : EntryOracle) (s : TraderState)
    (symbol : Symbol) (side : Side) (price : ℚ) (strategy notes : String) :
    TraderState × EntryOutcome :=
  let currency :=
    match side with
    | Side.buy => symbol.quote
    | Side.sell => symbol.base
  match o.free_balance currency with
  | none => (s, EntryOutcome.failedNoBalance)
  | some free =>
    if free ≤ 0 then (s, EntryOutcome.failedNoBalance)
    else
      let quantity := calculate_trade_size cfg.max_trade_size side price free
      if quantity ≤ 0 then (s, EntryOutcome.failedBadQuantity)
      else
        let thresholds := calculate_stop_loss_take_profit cfg side price
        if o.orderOk then
          let r := record_trade_entry o.entryWriteOk o.newId s.ledger symbol
            side price quantity strategy notes
          let active2 :=
            match r.1 with
            | some tid =>
              s.active ++
                [(tid,
                  { symbol := symbol
                    side := side
                    entry_price := price
                    quantity := quantity
                    stop_loss := thresholds.1
                    take_profit := thresholds.2
                    highest_price := price
                    lowest_price := price })]
            | none => s.active
          ({ ledger := r.2, active := active2 }, EntryOutcome.success r.1)
        else (s, EntryOutcome.failedOrder)

/-- Embedding of AutoTrader.execute_trade: neutral signals are ignored;
when a confidence value is supplied it is compared against the hard-coded
minimum of 70 and low-confidence requests are ignored; otherwise the entry
body runs with the strategy and notes derived from the AI analysis. -/
def execute_trade (cfg : Config) (o : EntryOracle) (s : TraderState)
    (symbol : Symbol) (signal : Signal) (price : ℚ) (confidence : Option ℚ)
    (ai_analysis : Option String) : TraderState × EntryOutcome :=
  match signal_side signal with
  | none => (s, EntryOutcome.ignoredNeutral)
  | some side =>
    if (match confidence with
        | some c => decide (c < 70)
        | none => false) then
      (s, EntryOutcome.ignoredLowConfidence)
    else
      execute_trade_body cfg o s symbol side price
        (if ai_analysis.isSome then "AI_AUTO" else "TECHNICAL")
        (mkNotes confidence ai_analysis)

/-- External effects consumed by a monitoring tick: the ticker price per
symbol (none when the query fails), the closing-order outcome and the
exit-record write outcome per trade id. -/
structure TickOracle where
  getPrice : Symbol → Option ℚ
  closeOrderOk : Nat → Bool
  exitWriteOk : Nat → Bool

/-- Note recorded with a threshold-triggered exit. -/
def reason_note : ExitReason → String
  | ExitReason.stopLoss => "stop-loss triggered"
  | ExitReason.takeProfit => "take-profit triggered"
  | ExitReason.trailingStop => "trailing stop triggered"

/-- record_trade_exit behind its fallible CSV write: when the write fails
the catch-all handler of the source reports failure and the file is left
as it was. -/
def record_trade_exit_at (writeOk : Bool) (ledger : List TradeRecord)
    (tid : Nat) (price : ℚ) (notes : Option String) :
    Bool × List TradeRecord :=
  if writeOk then record_trade_exit ledger tid price notes
  else (false, ledger)

/-- A close action reported by a tick: trade id, close price, reason. -/
abbrev TickAction := Nat × ℚ × ExitReason

/-- Embedding of AutoTrader.check_open_positions: each active position is
processed in dictionary order; a failed price query skips the position for
this tick; otherwise the extrema are updated in place, the exit conditions
are evaluated, and on a breach with a successful closing order the exit is
recorded (its result ignored by the source) and the position is removed.
Returns the final ledger, the remaining active list and the actions
taken. -/
def tick_go (cfg : Config) (o : TickOracle) :
    List TradeRecord → List (Nat × ActivePosition) →
      List TradeRecord × List (Nat × ActivePosition) × List TickAction
  | ledger, [] => (ledger, [], [])
  | ledger, (tid, pos) :: rest =>
    match o.getPrice pos.symbol with
    | none =>
      let r := tick_go cfg o ledger rest
      (r.1, (tid, pos) :: r.2.1, r.2.2)
    | some price =>
      let pos2 := update_extrema pos price
      match exit_reason cfg.use_dynamic_sl cfg.stop_loss_pct pos2.side price
          pos2.stop_loss pos2.take_profit pos2.highest_price
          pos2.lowest_price with
      | none =>
        let r := tick_go cfg o ledger rest
        (r.1, (tid, pos2) :: r.2.1, r.2.2)
      | some reason =>
        if o.closeOrderOk tid then
          let e := record_trade_exit_at (o.exitWriteOk tid) ledger tid price
            (some (reason_note reason))
          let r := tick_go cfg o e.2 rest
          (r.1, r.2.1, (tid, price, reason) :: r.2.2)
        else
          let r := tick_go cfg o ledger rest
          (r.1, (tid, pos2) :: r.2.1, r.2.2)

/-- Embedding of AutoTrader.close_all_positions: every active position is
force-closed at the current price regardless of thresholds; failed price
queries and rejected orders leave the position active; a successful order
records the exit (result again ignored) and removes the position. -/
def close_all_go (o : TickOracle) (note : String) :
    List TradeRecord → List (Nat × ActivePosition) →
      List TradeRecord × List (Nat × ActivePosition) × List (Nat × ℚ)
  | ledger, [] => (ledger, [], [])
  | ledger, (tid, pos) :: rest =>
    match o.getPrice pos.symbol with
    | none =>
      let r := close_all_go o note ledger rest
      (r.1, (tid, pos) :: r.2.1, r.2.2)
    | some price =>
      if o.closeOrderOk tid then
        let e := record_trade_exit_at (o.exitWriteOk tid) ledger tid price
          (some note)
        let r := close_all_go o note e.2 rest
        (r.1, r.2.1, (tid, price) :: r.2.2)
      else
        let r := close_all_go o note ledger rest
        (r.1, (tid, pos) :: r.2.1, r.2.2)

/-- Number of ledger rows with the given trade id and status OPEN. -/
def countOpen (ledger : List TradeRecord) (tid : Nat) : ℕ :=
  ledger.countP (fun t => t.trade_id == tid && t.status == Status.OPEN)

/-- Number of active-dictionary entries with the given trade id. -/
def countActive (active : List (Nat × ActivePosition)) (tid : Nat) : ℕ :=
  active.countP (fun q => q.1 == tid)

/-- The Ledger/Risk-Monitor synchronization invariant of the claim: a trade
id has an OPEN ledger row exactly when exactly one active position carries
that id. -/
def ledgerActiveInv (s : TraderState) : Prop :=
  ∀ tid, 0 < countOpen s.ledger tid ↔ countActive s.active tid = 1

section CountLemmas

theorem countP_updateFirst (p q : α → Bool) (f : α → α) (l : List α)
    (h : ∀ x, p x = true → q (f x) = q x) :
    (updateFirst p f l).countP q = l.countP q := by
  induction l with
  | nil => rfl
  | cons x xs ih =>
    by_cases hx : p x
    · simp [updateFirst, hx, List.countP_cons, h x hx]
    · simp [updateFirst, hx, List.countP_cons, ih]

theorem map_updateFirst (p : α → Bool) (f : α → α) (g : α → β) (l : List α)
    (h : ∀ x, p x = true → g (f x) = g x) :
    (updateFirst p f l).map g = l.map g := by
  induction l with
  | nil => rfl
  | cons x xs ih =>
    by_cases hx : p x
    · simp [updateFirst, hx, h x hx]
    · simp [updateFirst, hx, ih]

theorem countOpen_eq_zero_of_not_mem (l : List TradeRecord) (tid : Nat)
    (h : tid ∉ l.map TradeRecord.trade_id) : countOpen l tid = 0 := by
  induction l with
  | nil => rfl
  | cons x xs ih =>
    simp only [List.map_cons, List.mem_cons, not_or] at h
    have hx : (x.trade_id == tid) = false := by
      simp [Ne.symm h.1]
    simp [countOpen, List.countP_cons, hx] at *
    exact ih h.2

theorem mem_of_countOpen_pos (l : List TradeRecord) (tid : Nat)
    (h : 0 < countOpen l tid) : tid ∈ l.map TradeRecord.trade_id := by
  by_contra hmem
  rw [countOpen_eq_zero_of_not_mem l tid hmem] at h
  exact lt_irrefl 0 h

theorem countOpen_le_one (l : List TradeRecord) (tid : Nat)
    (h : (l.map TradeRecord.trade_id).Nodup) : countOpen l tid ≤ 1 := by
  induction l with
  | nil => simp [countOpen]
  | cons x xs ih =>
    simp only [List.map_cons, List.nodup_cons] at h
    by_cases hx : x.trade_id = tid
    · have hz : countOpen xs tid = 0 :=
        countOpen_eq_zero_of_not_mem xs tid (hx ▸ h.1)
      simp only [countOpen, List.countP_cons] at *
      rw [hz]
      split <;> simp
    · have hb : (x.trade_id == tid && x.status == Status.OPEN) = false := by
        simp [hx]
      simp only [countOpen, List.countP_cons, hb, if_false] at *
      simpa using ih h.2

theorem countActive_eq_zero_of_not_mem (a : List (Nat × ActivePosition))
    (tid : Nat) (h : tid ∉ a.map Prod.fst) : countActive a tid = 0 := by
  induction a with
  | nil => rfl
  | cons x xs ih =>
    simp only [List.map_cons, List.mem_cons, not_or] at h
    have hx : (x.1 == tid) = false := by
      simp [Ne.symm h.1]
    simp [countActive, List.countP_cons, hx] at *
    exact ih h.2

theorem countActive_le_one (a : List (Nat × ActivePosition)) (tid : Nat)
    (h : (a.map Prod.fst).Nodup) : countActive a tid ≤ 1 := by
  induction a with
  | nil => simp [countActive]
  | cons x xs ih =>
    simp only [List.map_cons, List.nodup_cons] at h
    by_cases hx : x.1 = tid
    · have hz : countActive xs tid = 0 :=
        countActive_eq_zero_of_not_mem xs tid (hx ▸ h.1)
      simp only [countActive, List.countP_cons] at *
      rw [hz]
      split <;> simp
    · have hb : (x.1 == tid) = false := by
        simp [hx]
      simp only [countActive, List.countP_cons, hb, if_false] at *
      simpa using ih h.2

theorem countActive_pos_of_mem (a : List (Nat × ActivePosition)) (tid : Nat)
    (h : tid ∈ a.map Prod.fst) : 0 < countActive a tid := by
  induction a with
  | nil => simp at h
  | cons x xs ih =>
    simp only [List.map_cons, List.mem_cons] at h
    rcases h with h | h
    · simp [countActive, List.countP_cons, h]
    · have := ih h
      simp only [countActive, List.countP_cons] at *
      omega

end CountLemmas

section ExitCountLemmas

theorem record_trade_exit_map_trade_id (l : List TradeRecord) (tid : Nat)
    (p : ℚ) (n : Option String) :
    (record_trade_exit l tid p n).2.map TradeRecord.trade_id
      = l.map TradeRecord.trade_id := by
  rcases hfind : l.find? (fun u => u.trade_id == tid) with _ | t
  · rw [record_trade_exit_not_found l tid p n hfind]
  · by_cases hs : t.status = Status.OPEN
    · simp only [record_trade_exit, hfind, hs, ne_eq, not_true_eq_false,
        if_false]
      exact map_updateFirst _ _ _ l (fun x _ => rfl)
    · rw [record_trade_exit_closed l tid p n t hfind hs]

theorem countOpen_record_trade_exit_ne (l : List TradeRecord)
    (tid tid2 : Nat) (p : ℚ) (n : Option String) (h : tid2 ≠ tid) :
    countOpen (record_trade_exit l tid p n).2 tid2 = countOpen l tid2 := by
  rcases hfind : l.find? (fun u => u.trade_id == tid) with _ | t
  · rw [record_trade_exit_not_found l tid p n hfind]
  · by_cases hs : t.status = Status.OPEN
    · simp only [record_trade_exit, hfind, hs, ne_eq, not_true_eq_false,
        if_false]
      refine countP_updateFirst _ _ _ l (fun x hx => ?_)
      have hid : x.trade_id = tid := by
        simpa using hx
      have hne : (tid == tid2) = false := by
        simpa using Ne.symm h
      simp [hid, hne]
    · rw [record_trade_exit_closed l tid p n t hfind hs]

theorem find?_of_countOpen_pos (l : List TradeRecord) (tid : Nat)
    (hnd : (l.map TradeRecord.trade_id).Nodup) (h : 0 < countOpen l tid) :
    ∃ t, l.find? (fun u => u.trade_id == tid) = some t ∧
      t.status = Status.OPEN ∧ t.trade_id = tid := by
  induction l with
  | nil => simp [countOpen] at h
  | cons x xs ih =>
    simp only [List.map_cons, List.nodup_cons] at hnd
    by_cases hx : x.trade_id = tid
    · refine ⟨x, by simp [hx], ?_, hx⟩
      by_cases hs : x.status = Status.OPEN
      · exact hs
      · exfalso
        have hb : (x.trade_id == tid && x.status == Status.OPEN) = false := by
          simp [hs]
        simp only [countOpen, List.countP_cons, hb, if_false] at h
        refine hnd.1 ?_
        rw [hx]
        exact mem_of_countOpen_pos xs tid h
    · have hb : (x.trade_id == tid && x.status == Status.OPEN) = false := by
        simp [hx]
      simp only [countOpen, List.countP_cons, hb, if_false] at h
      obtain ⟨t, hfind, ht⟩ := ih hnd.2 h
      exact ⟨t, by simp [hx, hfind], ht⟩

theorem countOpen_updateFirst_close (l : List TradeRecord) (tid : Nat)
    (f : TradeRecord → TradeRecord)
    (hid : ∀ x, (f x).trade_id = x.trade_id)
    (hcl : ∀ x, (f x).status = Status.CLOSED)
    (hnd : (l.map TradeRecord.trade_id).Nodup) :
    countOpen (updateFirst (fun u => u.trade_id == tid) f l) tid = 0 := by
  induction l with
  | nil => rfl
  | cons x xs ih =>
    simp only [List.map_cons, List.nodup_cons] at hnd
    by_cases hx : x.trade_id = tid
    · have hb : ((f x).trade_id == tid && (f x).status == Status.OPEN)
          = false := by
        simp [hcl x]
      simp only [updateFirst, hx, beq_self_eq_true, if_true, countOpen,
        List.countP_cons, hb, if_false, add_zero]
      refine countOpen_eq_zero_of_not_mem xs tid ?_
      rw [← hx]
      exact hnd.1
    · have hb : (x.trade_id == tid && x.status == Status.OPEN) = false := by
        simp [hx]
      have hbx : (x.trade_id == tid) = false := by
        simp [hx]
      simp only [updateFirst, hbx, Bool.false_eq_true, if_false, countOpen,
        List.countP_cons, hb, if_false, add_zero]
      exact ih hnd.2

theorem record_trade_exit_closes (l : List TradeRecord) (tid : Nat) (p : ℚ)
    (n : Option String) (hnd : (l.map TradeRecord.trade_id).Nodup)
    (h : 0 < countOpen l tid) :
    (record_trade_exit l tid p n).1 = true ∧
    countOpen (record_trade_exit l tid p n).2 tid = 0 := by
  obtain ⟨t, hfind, hs, -⟩ := find?_of_countOpen_pos l tid hnd h
  constructor
  · simp [record_trade_exit, hfind, hs]
  · simp only [record_trade_exit, hfind, hs, ne_eq, not_true_eq_false,
      if_false]
    exact countOpen_updateFirst_close l tid _ (fun x => rfl) (fun x => rfl)
      hnd

theorem record_trade_exit_at_map_trade_id (w : Bool) (l : List TradeRecord)
    (tid : Nat) (p : ℚ) (n : Option String) :
    (record_trade_exit_at w l tid p n).2.map TradeRecord.trade_id
      = l.map TradeRecord.trade_id := by
  cases w
  · rfl
  · exact record_trade_exit_map_trade_id l tid p n

theorem countOpen_record_trade_exit_at_ne (w : Bool) (l : List TradeRecord)
    (tid tid2 : Nat) (p : ℚ) (n : Option String) (h : tid2 ≠ tid) :
    countOpen (record_trade_exit_at w l tid p n).2 tid2
      = countOpen l tid2 := by
  cases w
  · rfl
  · exact countOpen_record_trade_exit_ne l tid tid2 p n h

end ExitCountLemmas

section TickLemmas

theorem countActive_cons_ne (x : Nat × ActivePosition)
    (xs : List (Nat × ActivePosition)) (tid : Nat) (h : x.1 ≠ tid) :
    countActive (x :: xs) tid = countActive xs tid := by
  simp [countActive, List.countP_cons, h]

theorem countActive_cons_eq (x : Nat × ActivePosition)
    (xs : List (Nat × ActivePosition)) (tid : Nat) (h : x.1 = tid) :
    countActive (x :: xs) tid = countActive xs tid + 1 := by
  simp [countActive, List.countP_cons, h]

theorem tick_go_ledger_map (cfg : Config) (o : TickOracle) :
    ∀ (ps : List (Nat × ActivePosition)) (l : List TradeRecord),
      (tick_go cfg o l ps).1.map TradeRecord.trade_id
        = l.map TradeRecord.trade_id := by
  intro ps
  induction ps with
  | nil =>
    intro l
    rfl
  | cons hd rest ih =>
    intro l
    obtain ⟨tid, pos⟩ := hd
    simp only [tick_go]
    split
    · exact ih l
    · split
      · exact ih l
      · split
        · rw [ih]
          exact record_trade_exit_at_map_trade_id _ l _ _ _
        · exact ih l

theorem tick_go_frame (cfg : Config) (o : TickOracle) :
    ∀ (ps : List (Nat × ActivePosition)) (l : List TradeRecord) (tid : Nat),
      tid ∉ ps.map Prod.fst →
      countOpen (tick_go cfg o l ps).1 tid = countOpen l tid ∧
      countActive (tick_go cfg o l ps).2.1 tid = 0 := by
  intro ps
  induction ps with
  | nil =>
    intro l tid _
    exact ⟨rfl, rfl⟩
  | cons hd rest ih =>
    intro l tid h
    obtain ⟨tid0, pos⟩ := hd
    simp only [List.map_cons, List.mem_cons, not_or] at h
    have hne : tid0 ≠ tid := Ne.symm h.1
    simp only [tick_go]
    split
    · obtain ⟨h1, h2⟩ := ih l tid h.2
      exact ⟨h1, by rw [countActive_cons_ne _ _ _ hne]; exact h2⟩
    · split
      · obtain ⟨h1, h2⟩ := ih l tid h.2
        exact ⟨h1, by rw [countActive_cons_ne _ _ _ hne]; exact h2⟩
      · split
        · obtain ⟨h1, h2⟩ := ih
            (record_trade_exit_at (o.exitWriteOk tid0) l tid0 _ _).2 tid h.2
          refine ⟨?_, h2⟩
          rw [h1]
          exact countOpen_record_trade_exit_at_ne _ l tid0 tid _ _ h.1
        · obtain ⟨h1, h2⟩ := ih l tid h.2
          exact ⟨h1, by rw [countActive_cons_ne _ _ _ hne]; exact h2⟩

theorem tick_go_tracked (cfg : Config) (o : TickOracle) :
    ∀ (ps : List (Nat × ActivePosition)) (l : List TradeRecord) (tid : Nat),
      (ps.map Prod.fst).Nodup →
      tid ∈ ps.map Prod.fst →
      (l.map TradeRecord.trade_id).Nodup →
      countOpen l tid = 1 →
      (∀ i, o.exitWriteOk i = true) →
      (countOpen (tick_go cfg o l ps).1 tid = 1 ∧
        countActive (tick_go cfg o l ps).2.1 tid = 1) ∨
      (countOpen (tick_go cfg o l ps).1 tid = 0 ∧
        countActive (tick_go cfg o l ps).2.1 tid = 0) := by
  intro ps
  induction ps with
  | nil =>
    intro l tid _ hmem
    simp at hmem
  | cons hd rest ih =>
    intro l tid hnd hmem hndl hopen hw
    obtain ⟨tid0, pos⟩ := hd
    simp only [List.map_cons, List.nodup_cons] at hnd
    simp only [List.map_cons, List.mem_cons] at hmem
    by_cases heq : tid0 = tid
    · subst heq
      have hrest : tid0 ∉ rest.map Prod.fst := hnd.1
      simp only [tick_go]
      split
      · obtain ⟨h1, h2⟩ := tick_go_frame cfg o rest l tid0 hrest
        left
        exact ⟨by rw [h1]; exact hopen,
          by rw [countActive_cons_eq _ _ _ rfl, h2]⟩
      · split
        · obtain ⟨h1, h2⟩ := tick_go_frame cfg o rest l tid0 hrest
          left
          exact ⟨by rw [h1]; exact hopen,
            by rw [countActive_cons_eq _ _ _ rfl, h2]⟩
        · split
          · right
            obtain ⟨h1, h2⟩ := tick_go_frame cfg o rest
              (record_trade_exit_at (o.exitWriteOk tid0) l tid0 _ _).2 tid0
              hrest
            refine ⟨?_, h2⟩
            rw [h1]
            simp only [record_trade_exit_at, hw tid0, if_true]
            exact (record_trade_exit_closes l tid0 _ _ hndl (by omega)).2
          · obtain ⟨h1, h2⟩ := tick_go_frame cfg o rest l tid0 hrest
            left
            exact ⟨by rw [h1]; exact hopen,
              by rw [countActive_cons_eq _ _ _ rfl, h2]⟩
    · have hmem2 : tid ∈ rest.map Prod.fst := by
        rcases hmem with h | h
        · exact absurd h.symm heq
        · exact h
      have hne : tid0 ≠ tid := heq
      simp only [tick_go]
      split
      · rcases ih l tid hnd.2 hmem2 hndl hopen hw with ⟨h1, h2⟩ | ⟨h1, h2⟩
        · left
          exact ⟨h1, by rw [countActive_cons_ne _ _ _ hne]; exact h2⟩
        · right
          exact ⟨h1, by rw [countActive_cons_ne _ _ _ hne]; exact h2⟩
      · split
        · rcases ih l tid hnd.2 hmem2 hndl hopen hw with ⟨h1, h2⟩ | ⟨h1, h2⟩
          · left
            exact ⟨h1, by rw [countActive_cons_ne _ _ _ hne]; exact h2⟩
          · right
            exact ⟨h1, by rw [countActive_cons_ne _ _ _ hne]; exact h2⟩
        · split
          · refine ih _ tid hnd.2 hmem2 ?_ ?_ hw
            · rw [record_trade_exit_at_map_trade_id]
              exact hndl
            · rw [countOpen_record_trade_exit_at_ne _ l tid0 tid _ _
                (Ne.symm hne)]
              exact hopen
          · rcases ih l tid hnd.2 hmem2 hndl hopen hw with ⟨h1, h2⟩ | ⟨h1, h2⟩
            · left
              exact ⟨h1, by rw [countActive_cons_ne _ _ _ hne]; exact h2⟩
            · right
              exact ⟨h1, by rw [countActive_cons_ne _ _ _ hne]; exact h2⟩

theorem close_all_go_ledger_map (o : TickOracle) (note : String) :
    ∀ (ps : List (Nat × ActivePosition)) (l : List TradeRecord),
      (close_all_go o note l ps).1.map TradeRecord.trade_id
        = l.map TradeRecord.trade_id := by
  intro ps
  induction ps with
  | nil =>
    intro l
    rfl
  | cons hd rest ih =>
    intro l
    obtain ⟨tid, pos⟩ := hd
    simp only [close_all_go]
    split
    · exact ih l
    · split
      · rw [ih]
        exact record_trade_exit_at_map_trade_id _ l _ _ _
      · exact ih l

theorem close_all_go_frame (o : TickOracle) (note : String) :
    ∀ (ps : List (Nat × ActivePosition)) (l : List TradeRecord) (tid : Nat),
      tid ∉ ps.map Prod.fst →
      countOpen (close_all_go o note l ps).1 tid = countOpen l tid ∧
      countActive (close_all_go o note l ps).2.1 tid = 0 := by
  intro ps
  induction ps with
  | nil =>
    intro l tid _
    exact ⟨rfl, rfl⟩
  | cons hd rest ih =>
    intro l tid h
    obtain ⟨tid0, pos⟩ := hd
    simp only [List.map_cons, List.mem_cons, not_or] at h
    have hne : tid0 ≠ tid := Ne.symm h.1
    simp only [close_all_go]
    split
    · obtain ⟨h1, h2⟩ := ih l tid h.2
      exact ⟨h1, by rw [countActive_cons_ne _ _ _ hne]; exact h2⟩
    · split
      · obtain ⟨h1, h2⟩ := ih
          (record_trade_exit_at (o.exitWriteOk tid0) l tid0 _ _).2 tid h.2
        refine ⟨?_, h2⟩
        rw [h1]
        exact countOpen_record_trade_exit_at_ne _ l tid0 tid _ _ h.1
      · obtain ⟨h1, h2⟩ := ih l tid h.2
        exact ⟨h1, by rw [countActive_cons_ne _ _ _ hne]; exact h2⟩

theorem close_all_go_tracked (o : TickOracle) (note : String) :
    ∀ (ps : List (Nat × ActivePosition)) (l : List TradeRecord) (tid : Nat),
      (ps.map Prod.fst).Nodup →
      tid ∈ ps.map Prod.fst →
      (l.map TradeRecord.trade_id).Nodup →
      countOpen l tid = 1 →
      (∀ i, o.exitWriteOk i = true) →
      (countOpen (close_all_go o note l ps).1 tid = 1 ∧
        countActive (close_all_go o note l ps).2.1 tid = 1) ∨
      (countOpen (close_all_go o note l ps).1 tid = 0 ∧
        countActive (close_all_go o note l ps).2.1 tid = 0) := by
  intro ps
  induction ps with
  | nil =>
    intro l tid _ hmem
    simp at hmem
  | cons hd rest ih =>
    intro l tid hnd hmem hndl hopen hw
    obtain ⟨tid0, pos⟩ := hd
    simp only [List.map_cons, List.nodup_cons] at hnd
    simp only [List.map_cons, List.mem_cons] at hmem
    by_cases heq : tid0 = tid
    · subst heq
      have hrest : tid0 ∉ rest.map Prod.fst := hnd.1
      simp only [close_all_go]
      split
      · obtain ⟨h1, h2⟩ := close_all_go_frame o note rest l tid0 hrest
        left
        exact ⟨by rw [h1]; exact hopen,
          by rw [countActive_cons_eq _ _ _ rfl, h2]⟩
      · split
        · right
          obtain ⟨h1, h2⟩ := close_all_go_frame o note rest
            (record_trade_exit_at (o.exitWriteOk tid0) l tid0 _ _).2 tid0
            hrest
          refine ⟨?_, h2⟩
          rw [h1]
          simp only [record_trade_exit_at, hw tid0, if_true]
          exact (record_trade_exit_closes l tid0 _ _ hndl (by omega)).2
        · obtain ⟨h1, h2⟩ := close_all_go_frame o note rest l tid0 hrest
          left
          exact ⟨by rw [h1]; exact hopen,
            by rw [countActive_cons_eq _ _ _ rfl, h2]⟩
    · have hmem2 : tid ∈ rest.map Prod.fst := by
        rcases hmem with h | h
        · exact absurd h.symm heq
        · exact h
      have hne : tid0 ≠ tid := heq
      simp only [close_all_go]
      split
      · rcases ih l tid hnd.2 hmem2 hndl hopen hw with ⟨h1, h2⟩ | ⟨h1, h2⟩
        · left
          exact ⟨h1, by rw [countActive_cons_ne _ _ _ hne]; exact h2⟩
        · right
          exact ⟨h1, by rw [countActive_cons_ne _ _ _ hne]; exact h2⟩
      · split
        · refine ih _ tid hnd.2 hmem2 ?_ ?_ hw
          · rw [record_trade_exit_at_map_trade_id]
            exact hndl
          · rw [countOpen_record_trade_exit_at_ne _ l tid0 tid _ _
              (Ne.symm hne)]
            exact hopen
        · rcases ih l tid hnd.2 hmem2 hndl hopen hw with ⟨h1, h2⟩ | ⟨h1, h2⟩
          · left
            exact ⟨h1, by rw [countActive_cons_ne _ _ _ hne]; exact h2⟩
          · right
            exact ⟨h1, by rw [countActive_cons_ne _ _ _ hne]; exact h2⟩

end TickLemmas

section StartupEntryLemmas

theorem countActive_load (l : List TradeRecord) (risk : Nat → ℚ × ℚ)
    (tid : Nat) :
    countActive (load_open_trades l risk) tid = countOpen l tid := by
  induction l with
  | nil => rfl
  | cons x xs ih =>
    by_cases hs : x.status = Status.OPEN
    · have hb : (x.status == Status.OPEN) = true := by
        simp [hs]
      have hb2 : (x.trade_id == tid && x.status == Status.OPEN)
          = (x.trade_id == tid) := by
        simp [hs]
      simp only [load_open_trades, countActive, countOpen] at ih ⊢
      simp only [List.filter_cons, hb, if_true, List.map_cons,
        List.countP_cons, hb2, ih, Bool.and_true]
    · have hb : (x.status == Status.OPEN) = false := by
        simp [hs]
      have hb2 : (x.trade_id == tid && x.status == Status.OPEN) = false := by
        simp [hs]
      simp only [load_open_trades, countActive, countOpen] at ih ⊢
      simp only [List.filter_cons, hb, Bool.false_eq_true, if_false,
        List.countP_cons, hb2, Bool.and_false, add_zero]
      exact ih

theorem load_establishes_inv (l : List TradeRecord) (risk : Nat → ℚ × ℚ)
    (hnd : (l.map TradeRecord.trade_id).Nodup) :
    ledgerActiveInv ⟨l, load_open_trades l risk⟩ := by
  intro tid
  show 0 < countOpen l tid ↔ countActive (load_open_trades l risk) tid = 1
  rw [countActive_load]
  have := countOpen_le_one l tid hnd
  omega

theorem execute_trade_shape (cfg : Config) (o : EntryOracle) (s : TraderState)
    (symbol : Symbol) (signal : Signal) (price : ℚ) (confidence : Option ℚ)
    (ai : Option String) :
    (execute_trade cfg o s symbol signal price confidence ai).1 = s ∨
    ∃ rec pos,
      (execute_trade cfg o s symbol signal price confidence ai).1
        = { ledger := s.ledger ++ [rec]
            active := s.active ++ [(o.newId, pos)] } ∧
      rec.trade_id = o.newId ∧ rec.status = Status.OPEN ∧
      pos.entry_price = price ∧ pos.highest_price = price ∧
      pos.lowest_price = price ∧
      (execute_trade cfg o s symbol signal price confidence ai).2
        = EntryOutcome.success (some o.newId) ∧
      o.entryWriteOk = true := by
  have hbody : ∀ side strategy notes,
      (execute_trade_body cfg o s symbol side price strategy notes).1 = s ∨
      ∃ rec pos,
        (execute_trade_body cfg o s symbol side price strategy notes).1
          = { ledger := s.ledger ++ [rec]
              active := s.active ++ [(o.newId, pos)] } ∧
        rec.trade_id = o.newId ∧ rec.status = Status.OPEN ∧
        pos.entry_price = price ∧ pos.highest_price = price ∧
        pos.lowest_price = price ∧
        (execute_trade_body cfg o s symbol side price strategy notes).2
          = EntryOutcome.success (some o.newId) ∧
        o.entryWriteOk = true := by
    intro side strategy notes
    simp only [execute_trade_body]
    split
    · exact Or.inl rfl
    · split
      · exact Or.inl rfl
      · split
        · exact Or.inl rfl
        · split
          · cases hwk : o.entryWriteOk
            · left
              rfl
            · right
              exact ⟨_, _, rfl, rfl, rfl, rfl, rfl, rfl, rfl, rfl⟩
          · exact Or.inl rfl
  cases signal with
  | neutral => exact Or.inl rfl
  | buy =>
    simp only [execute_trade, signal_side]
    split
    · exact Or.inl rfl
    · exact hbody Side.buy _ _
  | sell =>
    simp only [execute_trade, signal_side]
    split
    · exact Or.inl rfl
    · exact hbody Side.sell _ _

theorem entry_preserves_inv (cfg : Config) (o : EntryOracle) (s : TraderState)
    (symbol : Symbol) (signal : Signal) (price : ℚ) (confidence : Option ℚ)
    (ai : Option String)
    (hinv : ledgerActiveInv s)
    (hnda : (s.active.map Prod.fst).Nodup)
    (hfresh : o.newId ∉ s.ledger.map TradeRecord.trade_id) :
    ledgerActiveInv
      (execute_trade cfg o s symbol signal price confidence ai).1 := by
  rcases execute_trade_shape cfg o s symbol signal price confidence ai with
    h | ⟨rec, pos, hstate, hid, hst, -, -, -, -, -⟩
  · rw [h]
    exact hinv
  · rw [hstate]
    intro tid
    show 0 < countOpen (s.ledger ++ [rec]) tid ↔
      countActive (s.active ++ [(o.newId, pos)]) tid = 1
    have hopen_app : countOpen (s.ledger ++ [rec]) tid
        = countOpen s.ledger tid
          + (if rec.trade_id = tid then 1 else 0) := by
      simp [countOpen, List.countP_append, List.countP_cons, hst]
    have hact_app : countActive (s.active ++ [(o.newId, pos)]) tid
        = countActive s.active tid + (if o.newId = tid then 1 else 0) := by
      simp [countActive, List.countP_append, List.countP_cons]
    by_cases htid : tid = o.newId
    · have h0 : countOpen s.ledger tid = 0 := by
        rw [htid]
        exact countOpen_eq_zero_of_not_mem _ _ hfresh
      have ha0 : countActive s.active tid = 0 := by
        have h1 : ¬countActive s.active tid = 1 := by
          intro hc
          have := (hinv tid).mpr hc
          omega
        have h2 := countActive_le_one s.active tid hnda
        omega
      rw [hopen_app, hact_app, h0, ha0, if_pos (htid ▸ hid),
        if_pos htid.symm]
      simp
    · have hne : rec.trade_id ≠ tid := by
        rw [hid]
        exact fun hc => htid hc.symm
      rw [hopen_app, hact_app, if_neg hne,
        if_neg (fun hc => htid hc.symm)]
      simpa using hinv tid

theorem tick_preserves_inv (cfg : Config) (o : TickOracle) (s : TraderState)
    (hinv : ledgerActiveInv s)
    (hndl : (s.ledger.map TradeRecord.trade_id).Nodup)
    (hnda : (s.active.map Prod.fst).Nodup)
    (hw : ∀ i, o.exitWriteOk i = true) :
    ledgerActiveInv
      ⟨(tick_go cfg o s.ledger s.active).1,
        (tick_go cfg o s.ledger s.active).2.1⟩ := by
  intro tid
  show 0 < countOpen (tick_go cfg o s.ledger s.active).1 tid ↔
    countActive (tick_go cfg o s.ledger s.active).2.1 tid = 1
  by_cases hmem : tid ∈ s.active.map Prod.fst
  · have hca : countActive s.active tid = 1 := by
      have h1 := countActive_pos_of_mem s.active tid hmem
      have h2 := countActive_le_one s.active tid hnda
      omega
    have hco : countOpen s.ledger tid = 1 := by
      have h1 := (hinv tid).mpr hca
      have h2 := countOpen_le_one s.ledger tid hndl
      omega
    rcases tick_go_tracked cfg o s.active s.ledger tid hnda hmem hndl hco hw
      with ⟨h1, h2⟩ | ⟨h1, h2⟩ <;> rw [h1, h2] <;> simp
  · have hca : countActive s.active tid = 0 :=
      countActive_eq_zero_of_not_mem _ _ hmem
    have hco : countOpen s.ledger tid = 0 := by
      by_contra hc
      have := (hinv tid).mp (by omega)
      omega
    obtain ⟨h1, h2⟩ := tick_go_frame cfg o s.active s.ledger tid hmem
    rw [h1, h2, hco]
    simp

theorem closeall_preserves_inv (o : TickOracle) (note : String)
    (s : TraderState)
    (hinv : ledgerActiveInv s)
    (hndl : (s.ledger.map TradeRecord.trade_id).Nodup)
    (hnda : (s.active.map Prod.fst).Nodup)
    (hw : ∀ i, o.exitWriteOk i = true) :
    ledgerActiveInv
      ⟨(close_all_go o note s.ledger s.active).1,
        (close_all_go o note s.ledger s.active).2.1⟩ := by
  intro tid
  show 0 < countOpen (close_all_go o note s.ledger s.active).1 tid ↔
    countActive (close_all_go o note s.ledger s.active).2.1 tid = 1
  by_cases hmem : tid ∈ s.active.map Prod.fst
  · have hca : countActive s.active tid = 1 := by
      have h1 := countActive_pos_of_mem s.active tid hmem
      have h2 := countActive_le_one s.active tid hnda
      omega
    have hco : countOpen s.ledger tid = 1 := by
      have h1 := (hinv tid).mpr hca
      have h2 := countOpen_le_one s.ledger tid hndl
      omega
    rcases close_all_go_tracked o note s.active s.ledger tid hnda hmem hndl
      hco hw with ⟨h1, h2⟩ | ⟨h1, h2⟩ <;> rw [h1, h2] <;> simp
  · have hca : countActive s.active tid = 0 :=
      countActive_eq_zero_of_not_mem _ _ hmem
    have hco : countOpen s.ledger tid = 0 := by
      by_contra hc
      have := (hinv tid).mp (by omega)
      omega
    obtain ⟨h1, h2⟩ := close_all_go_frame o note s.active s.ledger tid hmem
    rw [h1, h2, hco]
    simp

theorem tick_removed_closed (cfg : Config) (o : TickOracle)
    (l : List TradeRecord) (ps : List (Nat × ActivePosition)) (tid : Nat)
    (hnd : (ps.map Prod.fst).Nodup) (hmem : tid ∈ ps.map Prod.fst)
    (hndl : (l.map TradeRecord.trade_id).Nodup)
    (hopen : countOpen l tid = 1) (hw : ∀ i, o.exitWriteOk i = true)
    (hgone : tid ∉ (tick_go cfg o l ps).2.1.map Prod.fst) :
    countOpen (tick_go cfg o l ps).1 tid = 0 ∧
    tid ∈ (tick_go cfg o l ps).1.map TradeRecord.trade_id := by
  have hmap := tick_go_ledger_map cfg o ps l
  have hmem_l : tid ∈ (tick_go cfg o l ps).1.map TradeRecord.trade_id := by
    rw [hmap]
    exact mem_of_countOpen_pos l tid (by omega)
  rcases tick_go_tracked cfg o ps l tid hnd hmem hndl hopen hw with
    ⟨h1, h2⟩ | ⟨h1, h2⟩
  · exfalso
    have := countActive_eq_zero_of_not_mem _ _ hgone
    omega
  · exact ⟨h1, hmem_l⟩

end StartupEntryLemmas

/-- Configuration used in the concrete risk-monitor scenarios: maximum
trade size 10, stop loss 3 percent, take profit 2 percent, dynamic stop
loss enabled (the defaults of AutoTrader.__init__). -/
def c1Cfg : Config :=
  { max_trade_size := 10
    stop_loss_pct := 3
    take_profit_pct := 2
    use_dynamic_sl := true }

/-- Single OPEN ledger row of the concrete scenario. -/
def c1Rec : TradeRecord :=
  { trade_id := 1
    symbol := ⟨"BTC", "USDT"⟩
    side := Side.buy
    entry_price := 100
    quantity := 1
    exit_price := none
    profit_loss := 0
    profit_loss_pct := 0
    status := Status.OPEN
    strategy := ""
    notes := "" }

/-- Matching active position of the concrete scenario, stop loss 97, take
profit 102. -/
def c1Pos : ActivePosition :=
  { symbol := ⟨"BTC", "USDT"⟩
    side := Side.buy
    entry_price := 100
    quantity := 1
    stop_loss := 97
    take_profit := 102
    highest_price := 100
    lowest_price := 100 }

/-- Tick effects where the price 95 breaches the stop loss, the closing
order succeeds, but the exit-record CSV write fails. -/
def c1Oracle : TickOracle :=
  { getPrice := fun _ => some 95
    closeOrderOk := fun _ => true
    exitWriteOk := fun _ => false }

/-- Tick effects identical to c1Oracle except that the exit-record write
succeeds. -/
def c1OracleOk : TickOracle :=
  { getPrice := fun _ => some 95
    closeOrderOk := fun _ => true
    exitWriteOk := fun _ => true }

/-- C1, counterexample.  In the concrete scenario the tick removes the
position from the active set after the successful closing order, yet the
ledger row remains OPEN because the record_trade_exit write failed — the
claimed equivalence between OPEN rows and active positions is broken and
the record is not CLOSED. -/
theorem tick_exit_write_failure_cex :
    (tick_go c1Cfg c1Oracle [c1Rec] [(1, c1Pos)]).2.1 = [] ∧
    (tick_go c1Cfg c1Oracle [c1Rec] [(1, c1Pos)]).1 = [c1Rec] ∧
    c1Rec.status = Status.OPEN ∧
    ¬ ledgerActiveInv
        ⟨(tick_go c1Cfg c1Oracle [c1Rec] [(1, c1Pos)]).1,
          (tick_go c1Cfg c1Oracle [c1Rec] [(1, c1Pos)]).2.1⟩ := by
  have htick : tick_go c1Cfg c1Oracle [c1Rec] [(1, c1Pos)]
      = ([c1Rec], [], [(1, 95, ExitReason.stopLoss)]) := by
    norm_num [tick_go, c1Cfg, c1Oracle, c1Pos, exit_reason, update_extrema,
      record_trade_exit_at]
  refine ⟨by rw [htick], by rw [htick], rfl, fun h => ?_⟩
  have h1 := (h 1).mp
  rw [htick] at h1
  have h2 := h1 (by decide)
  simp [countActive] at h2

/-- C1 (amended).  The OPEN-row/active-position equivalence holds at
startup and is preserved by entry execution, by a monitoring tick and by
close-all, provided every record_trade_exit write during the tick or
close-all succeeds (the counterexample shows it breaks when such a write
fails, because the position is removed regardless); moreover a position the
tick removes has its ledger row present and no longer OPEN, that is,
CLOSED, when its exit write succeeded. -/
theorem ledger_active_synchronization :
    (∀ (l : List TradeRecord) (risk : Nat → ℚ × ℚ),
      (l.map TradeRecord.trade_id).Nodup →
      ledgerActiveInv ⟨l, load_open_trades l risk⟩) ∧
    (∀ (cfg : Config) (o : EntryOracle) (s : TraderState) (symbol : Symbol)
        (signal : Signal) (price : ℚ) (confidence : Option ℚ)
        (ai : Option String),
      ledgerActiveInv s →
      (s.active.map Prod.fst).Nodup →
      o.newId ∉ s.ledger.map TradeRecord.trade_id →
      ledgerActiveInv
        (execute_trade cfg o s symbol signal price confidence ai).1) ∧
    (∀ (cfg : Config) (o : TickOracle) (s : TraderState),
      ledgerActiveInv s →
      (s.ledger.map TradeRecord.trade_id).Nodup →
      (s.active.map Prod.fst).Nodup →
      (∀ i, o.exitWriteOk i = true) →
      ledgerActiveInv
        ⟨(tick_go cfg o s.ledger s.active).1,
          (tick_go cfg o s.ledger s.active).2.1⟩) ∧
    (∀ (o : TickOracle) (note : String) (s : TraderState),
      ledgerActiveInv s →
      (s.ledger.map TradeRecord.trade_id).Nodup →
      (s.active.map Prod.fst).Nodup →
      (∀ i, o.exitWriteOk i = true) →
      ledgerActiveInv
        ⟨(close_all_go o note s.ledger s.active).1,
          (close_all_go o note s.ledger s.active).2.1⟩) ∧
    (∀ (cfg : Config) (o : TickOracle) (l : List TradeRecord)
        (ps : List (Nat × ActivePosition)) (tid : Nat),
      (ps.map Prod.fst).Nodup →
      tid ∈ ps.map Prod.fst →
      (l.map TradeRecord.trade_id).Nodup →
      countOpen l tid = 1 →
      (∀ i, o.exitWriteOk i = true) →
      tid ∉ (tick_go cfg o l ps).2.1.map Prod.fst →
      countOpen (tick_go cfg o l ps).1 tid = 0 ∧
      tid ∈ (tick_go cfg o l ps).1.map TradeRecord.trade_id) :=
  ⟨load_establishes_inv,
    fun cfg o s symbol signal price confidence ai =>
      entry_preserves_inv cfg o s symbol signal price confidence ai,
    fun cfg o s => tick_preserves_inv cfg o s,
    fun o note s => closeall_preserves_inv o note s,
    fun cfg o l ps tid => tick_removed_closed cfg o l ps tid⟩

/-- Witness for claim C1: in the concrete one-position scenario with a
succeeding exit write, the tick preserves the equivalence. -/
theorem ledger_active_synchronization_witness :
    ledgerActiveInv
      ⟨(tick_go c1Cfg c1OracleOk [c1Rec] [(1, c1Pos)]).1,
        (tick_go c1Cfg c1OracleOk [c1Rec] [(1, c1Pos)]).2.1⟩ :=
  ledger_active_synchronization.2.2.1 c1Cfg c1OracleOk
    ⟨[c1Rec], [(1, c1Pos)]⟩
    (by
      intro tid
      show 0 < countOpen [c1Rec] tid ↔ countActive [(1, c1Pos)] tid = 1
      by_cases h : tid = 1
      · subst h
        decide
      · have hb1 : (c1Rec.trade_id == tid) = false := by
          simp [c1Rec]
          exact fun hc => h hc.symm
        have hb2 : ((1 : Nat) == tid) = false := by
          simp
          exact fun hc => h hc.symm
        simp [countOpen, countActive, List.countP, List.countP.go, hb1, hb2])
    (by simp [c1Rec])
    (by simp)
    (fun i => rfl)

/-- C7.  Extrema are initialized to the entry price both when a position is
rehydrated by the startup load and when the entry path creates it; each
price observation sets highest_price to the maximum and lowest_price to the
minimum of the stored value and the current price; and across any sequence
of observations (including skipped ticks) highest_price never decreases and
lowest_price never increases. -/
theorem extrema_init_and_monotone :
    (∀ (ledger : List TradeRecord) (risk : Nat → ℚ × ℚ) (tid : Nat)
        (pos : ActivePosition),
      (tid, pos) ∈ load_open_trades ledger risk →
      pos.highest_price = pos.entry_price ∧
      pos.lowest_price = pos.entry_price) ∧
    (∀ (cfg : Config) (o : EntryOracle) (s : TraderState) (symbol : Symbol)
        (signal : Signal) (price : ℚ) (confidence : Option ℚ)
        (ai : Option String) (tid : Nat) (pos : ActivePosition),
      (tid, pos)
          ∈ (execute_trade cfg o s symbol signal price confidence ai).1.active →
      (tid, pos) ∈ s.active ∨
        (pos.highest_price = pos.entry_price ∧
         pos.lowest_price = pos.entry_price ∧ pos.entry_price = price)) ∧
    (∀ (pos : ActivePosition) (price : ℚ),
      (update_extrema pos price).highest_price
          = max pos.highest_price price ∧
      (update_extrema pos price).lowest_price
          = min pos.lowest_price price) ∧
    (∀ (pos : ActivePosition) (ticks : List (Option ℚ)),
      pos.highest_price ≤ (ticks.foldl observe pos).highest_price ∧
      (ticks.foldl observe pos).lowest_price ≤ pos.lowest_price) := by
  refine ⟨?_, ?_, fun pos price => ⟨rfl, rfl⟩, ?_⟩
  · intro ledger risk tid pos hmem
    simp only [load_open_trades, List.mem_map] at hmem
    obtain ⟨t, -, ht⟩ := hmem
    obtain ⟨-, hpos⟩ := Prod.mk.injEq .. ▸ ht
    rw [← hpos]
    exact ⟨rfl, rfl⟩
  · intro cfg o s symbol signal price confidence ai tid pos hmem
    rcases execute_trade_shape cfg o s symbol signal price confidence ai with
      h | ⟨rec, posN, hstate, -, -, hp1, hp2, hp3, -, -⟩
    · rw [h] at hmem
      exact Or.inl hmem
    · rw [hstate] at hmem
      simp only [List.mem_append, List.mem_singleton] at hmem
      rcases hmem with hmem | hmem
      · exact Or.inl hmem
      · right
        obtain ⟨-, hpos⟩ := Prod.mk.injEq .. ▸ hmem
        rw [← hpos] at hp1 hp2 hp3
        exact ⟨hp2.trans hp1.symm, hp3.trans hp1.symm, hp1⟩
  · intro pos ticks
    induction ticks generalizing pos with
    | nil => exact ⟨le_refl _, le_refl _⟩
    | cons t ts ih =>
      obtain ⟨ih1, ih2⟩ := ih (observe pos t)
      refine ⟨le_trans ?_ ih1, le_trans ih2 ?_⟩ <;> cases t <;>
        simp [observe, update_extrema]

/-- Witness for claim C7: the position rehydrated from the concrete OPEN
ledger row has both extrema equal to its entry price. -/
theorem extrema_init_and_monotone_witness :
    c1Pos.highest_price = c1Pos.entry_price ∧
    c1Pos.lowest_price = c1Pos.entry_price :=
  extrema_init_and_monotone.1 [c1Rec] (fun _ => (97, 102)) 1 c1Pos
    (by decide)

theorem tick_go_append (cfg : Config) (o : TickOracle) :
    ∀ (xs ys : List (Nat × ActivePosition)) (l : List TradeRecord),
      tick_go cfg o l (xs ++ ys)
        = ((tick_go cfg o (tick_go cfg o l xs).1 ys).1,
           (tick_go cfg o l xs).2.1
             ++ (tick_go cfg o (tick_go cfg o l xs).1 ys).2.1,
           (tick_go cfg o l xs).2.2
             ++ (tick_go cfg o (tick_go cfg o l xs).1 ys).2.2) := by
  intro xs
  induction xs with
  | nil =>
    intro ys l
    rfl
  | cons hd rest ih =>
    intro ys l
    obtain ⟨tid, pos⟩ := hd
    simp only [List.cons_append, tick_go]
    split
    · simp [ih]
    · split
      · simp [ih]
      · split
        · simp [ih]
        · simp [ih]

/-- C8.  When the price query for one position fails during a tick, that
position is left in the active set unchanged, no action is taken for it and
the ledger is not touched on its behalf, while every other position before
and after it is processed exactly as it would be with the failed position
absent. -/
theorem tick_price_unavailable_skips (cfg : Config) (o : TickOracle)
    (l : List TradeRecord) (xs ys : List (Nat × ActivePosition)) (tid : Nat)
    (pos : ActivePosition) (h : o.getPrice pos.symbol = none) :
    (tick_go cfg o l (xs ++ (tid, pos) :: ys)).1
      = (tick_go cfg o (tick_go cfg o l xs).1 ys).1 ∧
    (tick_go cfg o l (xs ++ (tid, pos) :: ys)).2.1
      = (tick_go cfg o l xs).2.1 ++ (tid, pos) ::
          (tick_go cfg o (tick_go cfg o l xs).1 ys).2.1 ∧
    (tick_go cfg o l (xs ++ (tid, pos) :: ys)).2.2
      = (tick_go cfg o l xs).2.2
          ++ (tick_go cfg o (tick_go cfg o l xs).1 ys).2.2 := by
  rw [tick_go_append]
  simp [tick_go, h]

/-- Tick effects in which every price query fails. -/
def c8Oracle : TickOracle :=
  { getPrice := fun _ => none
    closeOrderOk := fun _ => true
    exitWriteOk := fun _ => true }

/-- Witness for claim C8: with the concrete all-queries-fail oracle
the single position is kept unchanged and nothing else happens. -/
theorem tick_price_unavailable_skips_witness :
    (tick_go c1Cfg c8Oracle [c1Rec] ([] ++ (1, c1Pos) :: [])).1
      = (tick_go c1Cfg c8Oracle
          (tick_go c1Cfg c8Oracle [c1Rec] []).1 []).1 ∧
    (tick_go c1Cfg c8Oracle [c1Rec] ([] ++ (1, c1Pos) :: [])).2.1
      = (tick_go c1Cfg c8Oracle [c1Rec] []).2.1 ++ (1, c1Pos) ::
          (tick_go c1Cfg c8Oracle
            (tick_go c1Cfg c8Oracle [c1Rec] []).1 []).2.1 ∧
    (tick_go c1Cfg c8Oracle [c1Rec] ([] ++ (1, c1Pos) :: [])).2.2
      = (tick_go c1Cfg c8Oracle [c1Rec] []).2.2
          ++ (tick_go c1Cfg c8Oracle
            (tick_go c1Cfg c8Oracle [c1Rec] []).1 []).2.2 :=
  tick_price_unavailable_skips c1Cfg c8Oracle [c1Rec] [] [] 1 c1Pos rfl

/-- Entry effects used in the concrete entry scenarios: 1000 units free in
every currency, order placement and entry write succeed, generated id 1. -/
def c9Oracle : EntryOracle :=
  { free_balance := fun _ => some 1000
    orderOk := true
    entryWriteOk := true
    newId := 1 }

/-- Empty initial trader state. -/
def c9State : TraderState := ⟨[], []⟩

/-- Symbol used in the concrete entry scenarios. -/
def c9Sym : Symbol := ⟨"BTC", "USDT"⟩

/-- C9, counterexample.  With everything else identical, a buy request with
confidence 50 is ignored by execute_trade while one with confidence 80
places the order and records the trade: the core does gate on the supplied
confidence (hard-coded threshold 70). -/
theorem entry_confidence_gate_cex :
    (execute_trade c1Cfg c9Oracle c9State c9Sym Signal.buy 50 (some 50)
        none).2 = EntryOutcome.ignoredLowConfidence ∧
    (execute_trade c1Cfg c9Oracle c9State c9Sym Signal.buy 50 (some 80)
        none).2 = EntryOutcome.success (some 1) ∧
    EntryOutcome.ignoredLowConfidence ≠ EntryOutcome.success (some 1) := by
  refine ⟨by decide, ?_, by decide⟩
  norm_num [execute_trade, signal_side, execute_trade_body, c9Oracle,
    c9State, c9Sym, c1Cfg, calculate_trade_size, calc_precision, floor_to,
    record_trade_entry]

/-- A trade record with its notes column cleared, used to compare ledgers
up to the free-text notes field. -/
def eraseNotes (t : TradeRecord) : TradeRecord := { t with notes := "" }

theorem execute_trade_body_notes_irrelevant (cfg : Config) (o : EntryOracle)
    (s : TraderState) (symbol : Symbol) (side : Side) (price : ℚ)
    (strategy : String) (n1 n2 : String) :
    (execute_trade_body cfg o s symbol side price strategy n1).2
      = (execute_trade_body cfg o s symbol side price strategy n2).2 ∧
    (execute_trade_body cfg o s symbol side price strategy n1).1.active
      = (execute_trade_body cfg o s symbol side price strategy n2).1.active ∧
    (execute_trade_body cfg o s symbol side price strategy
        n1).1.ledger.map eraseNotes
      = (execute_trade_body cfg o s symbol side price strategy
        n2).1.ledger.map eraseNotes := by
  simp only [execute_trade_body]
  split
  · exact ⟨rfl, rfl, rfl⟩
  · split
    · exact ⟨rfl, rfl, rfl⟩
    · split
      · exact ⟨rfl, rfl, rfl⟩
      · split
        · cases hwk : o.entryWriteOk
          · exact ⟨rfl, rfl, rfl⟩
          · refine ⟨rfl, rfl, ?_⟩
            simp [record_trade_entry, eraseNotes]
        · exact ⟨rfl, rfl, rfl⟩

/-- C9 (amended).  execute_trade applies a hard-coded confidence gate: a
supplied confidence below 70 short-circuits to an ignored outcome with no
order placed; for any two confidence inputs that pass the gate (absent or
at least 70), the outcome, the active set, and the recorded ledger rows up
to the confidence-bearing notes text are identical, so above the gate the
entry decision is independent of the confidence value. -/
theorem entry_confidence_independent_above_gate (cfg : Config)
    (o : EntryOracle) (s : TraderState) (symbol : Symbol) (signal : Signal)
    (price : ℚ) (ai : Option String) (c1 c2 : Option ℚ)
    (h1 : ∀ x, c1 = some x → 70 ≤ x) (h2 : ∀ x, c2 = some x → 70 ≤ x) :
    (execute_trade cfg o s symbol signal price c1 ai).2
      = (execute_trade cfg o s symbol signal price c2 ai).2 ∧
    (execute_trade cfg o s symbol signal price c1 ai).1.active
      = (execute_trade cfg o s symbol signal price c2 ai).1.active ∧
    (execute_trade cfg o s symbol signal price c1 ai).1.ledger.map
        eraseNotes
      = (execute_trade cfg o s symbol signal price c2 ai).1.ledger.map
        eraseNotes := by
  have hg : ∀ (c : Option ℚ), (∀ x, c = some x → 70 ≤ x) →
      (match c with
       | some x => decide (x < 70)
       | none => false) = false := by
    intro c hc
    cases c with
    | none => rfl
    | some x =>
      simp only [decide_eq_false_iff_not, not_lt]
      exact hc x rfl
  cases signal with
  | neutral => exact ⟨rfl, rfl, rfl⟩
  | buy =>
    simp only [execute_trade, signal_side, hg c1 h1, hg c2 h2,
      Bool.false_eq_true, if_false]
    exact execute_trade_body_notes_irrelevant cfg o s symbol Side.buy price
      _ _ _
  | sell =>
    simp only [execute_trade, signal_side, hg c1 h1, hg c2 h2,
      Bool.false_eq_true, if_false]
    exact execute_trade_body_notes_irrelevant cfg o s symbol Side.sell price
      _ _ _

/-- Witness for claim C9: confidence 80 and an absent confidence yield the
same outcome on the concrete entry scenario. -/
theorem entry_confidence_independent_above_gate_witness :
    (execute_trade c1Cfg c9Oracle c9State c9Sym Signal.buy 50 (some 80)
        none).2
      = (execute_trade c1Cfg c9Oracle c9State c9Sym Signal.buy 50 none
        none).2 :=
  (entry_confidence_independent_above_gate c1Cfg c9Oracle c9State c9Sym
    Signal.buy 50 none (some 80) none
    (fun x hx => by
      injection hx with h
      rw [← h]
      norm_num)
    (fun x hx => by cases hx)).1

/-- C10.  The entry recorder never escapes with an exception: modelled as a
total function, a failed persistence write yields the null identifier and
leaves the ledger unchanged, and a successful write yields the fresh id;
consequently the entry path either leaves the active set unchanged or
appends exactly one position under a freshly returned non-null trade id. -/
theorem entry_null_id_guard :
    (∀ (wk : Bool) (nid : Nat) (l : List TradeRecord) (sym : Symbol)
        (sd : Side) (p q : ℚ) (st no : String),
      (wk = false →
        record_trade_entry wk nid l sym sd p q st no = (none, l)) ∧
      (wk = true →
        (record_trade_entry wk nid l sym sd p q st no).1 = some nid)) ∧
    (∀ (cfg : Config) (o : EntryOracle) (s : TraderState) (sym : Symbol)
        (sig : Signal) (price : ℚ) (conf : Option ℚ) (ai : Option String),
      (o.entryWriteOk = false →
        (execute_trade cfg o s sym sig price conf ai).1.active
          = s.active) ∧
      ((execute_trade cfg o s sym sig price conf ai).1.active
          ≠ s.active →
        ∃ pos,
          (execute_trade cfg o s sym sig price conf ai).1.active
            = s.active ++ [(o.newId, pos)] ∧
          (execute_trade cfg o s sym sig price conf ai).2
            = EntryOutcome.success (some o.newId))) := by
  constructor
  · intro wk nid l sym sd p q st no
    constructor
    · intro hw
      rw [hw]
      rfl
    · intro hw
      rw [hw]
      rfl
  · intro cfg o s sym sig price conf ai
    rcases execute_trade_shape cfg o s sym sig price conf ai with
      h | ⟨rec, pos, hstate, -, -, -, -, -, hout, hwk⟩
    · rw [h]
      exact ⟨fun _ => rfl, fun hne => absurd rfl hne⟩
    · constructor
      · intro hw
        rw [hwk] at hw
        cases hw
      · intro _
        exact ⟨pos, by rw [hstate], hout⟩

/-- Entry effects whose persistence write fails. -/
def c10Oracle : EntryOracle :=
  { free_balance := fun _ => some 1000
    orderOk := true
    entryWriteOk := false
    newId := 1 }

/-- Witness for claim C10: with the failing entry write, the concrete entry
request leaves the active set unchanged, and the failing write itself
returns the null identifier with the ledger untouched. -/
theorem entry_null_id_guard_witness :
    record_trade_entry false 1 [] c9Sym Side.buy 50 10 "TECHNICAL" ""
      = (none, []) ∧
    (execute_trade c1Cfg c10Oracle c9State c9Sym Signal.buy 50 none
        none).1.active = c9State.active :=
  ⟨(entry_null_id_guard.1 false 1 [] c9Sym Side.buy 50 10 "TECHNICAL"
      "").1 rfl,
    (entry_null_id_guard.2 c1Cfg c10Oracle c9State c9Sym Signal.buy 50 none
      none).1 rfl⟩

end QuantBot
